import Mathlib

/-!
Verification development for the coolpropx nozzle solver stack.

Shallow embedding of the numeric core of
  src/examples/jaxprop/nozzle_model_solver.py
  src/examples/jaxprop_demo/diffrax_nozzle_single_phase_v3.py
over real numbers.  Nodal vectors of an order-n Chebyshev-Lobatto grid are
functions Fin (n+1) -> R, flat solver states are functions Fin (3*(n+1)) -> R,
and the differentiation operator is a Matrix.  The external thermodynamic
physics core (nozzle_single_phase_core, imported by both scripts and treated
by the specification as an opaque collaborator) is abstracted as a function
argument producing the record of fields the solver reads.
-/

open scoped BigOperators

noncomputable section

namespace NozzleModel

/-- jnp.clip with scalar bounds: minimum(maximum(v, lo), hi). -/
def clip (v lo hi : ℝ) : ℝ := min (max v lo) hi

/-- The numeric fields of NozzleParams (nozzle_model_solver.py).  The static
fluid handle is part of the opaque physics backend and is not modelled. -/
structure NozzleParamsL where
  p0_in : ℝ
  d0_in : ℝ
  D_in : ℝ
  length : ℝ
  roughness : ℝ
  T_wall : ℝ
  Ma_in : ℝ
  Ma_low : ℝ
  Ma_high : ℝ
  Ma_target : ℝ
  heat_transfer : ℝ
  wall_friction : ℝ

/-- The fields of the dictionary returned by the external physics core
nozzle_single_phase_core that the embedded code reads: the three source
terms N, the derivative denominator D (here Dtau), the Mach number, the
stagnation density and pressure, and the raw right-hand-side vector. -/
structure PhysOut where
  N0 : ℝ
  N1 : ℝ
  N2 : ℝ
  Dtau : ℝ
  Ma : ℝ
  d0 : ℝ
  p0 : ℝ
  rhs : Fin 3 → ℝ

/-- Signature of the external physics core: position, state triple
[u, d, p] and model parameters give the output record. -/
def NozzleCore : Type := ℝ → (Fin 3 → ℝ) → NozzleParamsL → PhysOut

/-- split_z: unpack the flat vector [u, ln_d, ln_p] by slicing
z[0:np], z[np:2*np], z[2*np:3*np] with np = n+1 points. -/
def split_z {n : ℕ} (z : Fin (3 * (n + 1)) → ℝ) :
    (Fin (n + 1) → ℝ) × (Fin (n + 1) → ℝ) × (Fin (n + 1) → ℝ) :=
  (fun i => z ⟨i.1, by have := i.2; omega⟩,
   fun i => z ⟨(n + 1) + i.1, by have := i.2; omega⟩,
   fun i => z ⟨2 * (n + 1) + i.1, by have := i.2; omega⟩)

/-- jnp.concatenate of three nodal vectors into one flat vector. -/
def concat3 {n : ℕ} (a b c : Fin (n + 1) → ℝ) : Fin (3 * (n + 1)) → ℝ :=
  fun i =>
    if h : i.1 < n + 1 then a ⟨i.1, h⟩
    else if h2 : i.1 < 2 * (n + 1) then b ⟨i.1 - (n + 1), by omega⟩
    else c ⟨i.1 - 2 * (n + 1), by have := i.2; omega⟩

/-- Claim C10: unpacking the concatenated flat vector [u, ln_d, ln_p] with
split_z reproduces the original three sequences exactly. -/
theorem split_z_concat3_roundtrip {n : ℕ} (u ln_d ln_p : Fin (n + 1) → ℝ) :
    split_z (concat3 u ln_d ln_p) = (u, ln_d, ln_p) := by
  refine Prod.ext ?_ (Prod.ext ?_ ?_) <;> funext i <;>
    simp only [split_z, concat3]
  · rw [dif_pos i.2]
  · have h1 : ¬ ((n + 1) + i.1 < n + 1) := by omega
    have h2 : (n + 1) + i.1 < 2 * (n + 1) := by have := i.2; omega
    have h3 : (⟨(n + 1) + i.1 - (n + 1), by omega⟩ : Fin (n + 1)) = i := by
      apply Fin.ext
      show (n + 1) + i.1 - (n + 1) = i.1
      omega
    rw [dif_neg h1, dif_pos h2, h3]
  · have h1 : ¬ (2 * (n + 1) + i.1 < n + 1) := by omega
    have h2 : ¬ (2 * (n + 1) + i.1 < 2 * (n + 1)) := by omega
    have h3 : (⟨2 * (n + 1) + i.1 - 2 * (n + 1), by have := i.2; omega⟩ : Fin (n + 1)) = i := by
      apply Fin.ext
      show 2 * (n + 1) + i.1 - 2 * (n + 1) = i.1
      omega
    rw [dif_neg h1, dif_neg h2, h3]

/-- The per-node state triple yi = [ui, di, pi] built inside evaluate_ode_rhs:
velocity as stored, density and pressure recovered as exponentials of the
log-state entries. -/
def node_inputs {n : ℕ} (z : Fin (3 * (n + 1)) → ℝ) (i : Fin (n + 1)) : Fin 3 → ℝ :=
  ![(split_z z).1 i, Real.exp ((split_z z).2.1 i), Real.exp ((split_z z).2.2 i)]

/-- evaluate_ode_rhs: vectorized full-model evaluation at all nodes from
z = [u, ln(rho), ln(p)]; each node delegates to the external physics core. -/
def evaluate_ode_rhs {n : ℕ} (x : Fin (n + 1) → ℝ) (z : Fin (3 * (n + 1)) → ℝ)
    (args : NozzleParamsL) (core : NozzleCore) : Fin (n + 1) → PhysOut :=
  fun i => core (x i) (node_inputs z i) args

/-- Claim C9: for every real-valued flat state vector z, whatever the signs of
its entries, the density and pressure values that the per-node evaluation
passes to the physics core are the exponentials of the log-state entries and
hence strictly positive. -/
theorem node_state_exp_positive {n : ℕ} (x : Fin (n + 1) → ℝ)
    (z : Fin (3 * (n + 1)) → ℝ) (args : NozzleParamsL) (core : NozzleCore)
    (i : Fin (n + 1)) :
    node_inputs z i 1 = Real.exp ((split_z z).2.1 i) ∧
    node_inputs z i 2 = Real.exp ((split_z z).2.2 i) ∧
    0 < node_inputs z i 1 ∧ 0 < node_inputs z i 2 ∧
    evaluate_ode_rhs x z args core i = core (x i) (node_inputs z i) args := by
  refine ⟨?_, ?_, ?_, ?_, rfl⟩
  · simp [node_inputs]
  · simp [node_inputs]
  · simpa [node_inputs] using Real.exp_pos ((split_z z).2.1 i)
  · simpa [node_inputs] using Real.exp_pos ((split_z z).2.2 i)

/-- Barycentric weights of the Chebyshev-Lobatto grid used by the
interpolation routine: w_k = (0.5 if k in {0, n} else 1) * (-1)^k. -/
def wBary (n : ℕ) (k : Fin (n + 1)) : ℝ :=
  (if k.1 = 0 ∨ k.1 = n then (1 / 2 : ℝ) else 1) * (-1) ^ k.1

/-- Sum S of the generic two-pass barycentric formula. -/
def baryS {n : ℕ} (x_nodes : Fin (n + 1) → ℝ) (x : ℝ) : ℝ :=
  ∑ j, wBary n j / (x - x_nodes j)

/-- Sum N of the generic two-pass barycentric formula. -/
def baryN {n : ℕ} (x_nodes y_nodes : Fin (n + 1) → ℝ) (x : ℝ) : ℝ :=
  ∑ j, wBary n j / (x - x_nodes j) * y_nodes j

/-- Sum S1 of the differentiated rational form. -/
def baryS1 {n : ℕ} (x_nodes : Fin (n + 1) → ℝ) (x : ℝ) : ℝ :=
  ∑ j, -wBary n j / ((x - x_nodes j) * (x - x_nodes j))

/-- Sum N1 of the differentiated rational form. -/
def baryN1 {n : ℕ} (x_nodes y_nodes : Fin (n + 1) → ℝ) (x : ℝ) : ℝ :=
  ∑ j, -wBary n j / ((x - x_nodes j) * (x - x_nodes j)) * y_nodes j

/-- chebyshev_lobatto_interpolate_and_derivative (scalar branch, which the
vectorized form maps elementwise).  When the evaluation point coincides with
a node (is_node at the first matching index, as jnp.argmax of the boolean
mask) the exact nodal value and the limiting finite-sum derivative are
returned, with the self term excluded through the update-to-safe-values
construction of the source; otherwise the generic two-pass formula is used. -/
def chebyshev_lobatto_interpolate_and_derivative {n : ℕ}
    (x_nodes y_nodes : Fin (n + 1) → ℝ) (x : ℝ) : ℝ × ℝ :=
  letI : DecidablePred fun j : Fin (n + 1) => x - x_nodes j = 0 :=
    Classical.decPred _
  match Fin.find (fun j => x - x_nodes j = 0) with
  | some idx =>
      (y_nodes idx,
        ∑ j, Function.update (wBary n) idx 0 j / wBary n idx *
          Function.update (fun l => y_nodes idx - y_nodes l) idx 0 j /
          Function.update (fun l => x_nodes idx - x_nodes l) idx 1 j)
  | none =>
      (baryN x_nodes y_nodes x / baryS x_nodes x,
        (baryN1 x_nodes y_nodes x -
            baryN x_nodes y_nodes x / baryS x_nodes x * baryS1 x_nodes x) /
          baryS x_nodes x)

theorem interp_at_node_aux {n : ℕ} (x_nodes y_nodes : Fin (n + 1) → ℝ)
    (i : Fin (n + 1)) (x : ℝ)
    (hdist : ∀ a b : Fin (n + 1), a ≠ b → x_nodes a ≠ x_nodes b)
    (hx : x = x_nodes i) :
    chebyshev_lobatto_interpolate_and_derivative x_nodes y_nodes x =
      (y_nodes i,
        ∑ j ∈ Finset.univ.erase i,
          wBary n j / wBary n i * (y_nodes i - y_nodes j) /
            (x_nodes i - x_nodes j)) := by
  letI : DecidablePred fun j : Fin (n + 1) => x - x_nodes j = 0 :=
    Classical.decPred _
  have hfind : Fin.find (fun j => x - x_nodes j = 0) = some i := by
    rw [Fin.find_eq_some_iff]
    refine ⟨by rw [hx, sub_self], ?_⟩
    intro j hj
    have hij : x_nodes i = x_nodes j := hx.symm.trans (sub_eq_zero.mp hj)
    by_contra hlt
    exact absurd hij (hdist i j (fun he => hlt (le_of_eq he)))
  unfold chebyshev_lobatto_interpolate_and_derivative
  rw [hfind]
  simp only [Prod.mk.injEq]
  refine ⟨trivial, ?_⟩
  rw [← Finset.add_sum_erase (Finset.univ) _ (Finset.mem_univ i)]
  rw [show Function.update (wBary n) i 0 i = 0 from Function.update_same i 0 _]
  rw [zero_div, zero_mul, zero_div, zero_add]
  refine Finset.sum_congr rfl ?_
  intro j hj
  have hji : j ≠ i := (Finset.mem_erase.mp hj).1
  rw [Function.update_noteq hji, Function.update_noteq hji,
    Function.update_noteq hji]

/-- Claim C6: with pairwise distinct nodes, evaluating at a point that
coincides exactly with node i returns exactly the nodal value y_nodes i and
the derivative given by the limiting finite-sum formula over the other
nodes. -/
theorem interpolate_at_node_exact {n : ℕ} (x_nodes y_nodes : Fin (n + 1) → ℝ)
    (i : Fin (n + 1)) (x : ℝ)
    (hdist : ∀ a b : Fin (n + 1), a ≠ b → x_nodes a ≠ x_nodes b)
    (hx : x = x_nodes i) :
    chebyshev_lobatto_interpolate_and_derivative x_nodes y_nodes x =
      (y_nodes i,
        ∑ j ∈ Finset.univ.erase i,
          wBary n j / wBary n i * (y_nodes i - y_nodes j) /
            (x_nodes i - x_nodes j)) :=
  interp_at_node_aux x_nodes y_nodes i x hdist hx

/-- Chebyshev points in standard Trefethen ordering: x_hat_k = cos(pi k / N). -/
def cheb_xhat (N : ℕ) (k : Fin (N + 1)) : ℝ :=
  Real.cos (Real.pi * k.1 / N)

/-- The sign-and-endpoint weight vector c of the Trefethen construction. -/
def cheb_c (N : ℕ) (k : Fin (N + 1)) : ℝ :=
  (if k.1 = 0 ∨ k.1 = N then (2 : ℝ) else 1) * (-1) ^ k.1

/-- The node-difference matrix dX = X - X.T + eye. -/
def cheb_dX (N : ℕ) (i j : Fin (N + 1)) : ℝ :=
  cheb_xhat N i - cheb_xhat N j + (if i = j then 1 else 0)

/-- Entrywise ratio D_hat = outer(c, 1/c) / dX before the diagonal fix. -/
def cheb_Dhat0 (N : ℕ) (i j : Fin (N + 1)) : ℝ :=
  cheb_c N i * (1 / cheb_c N j) / cheb_dX N i j

/-- D_hat with diagonal entries corrected by subtracting diag(row sums). -/
def cheb_Dhat (N : ℕ) (i j : Fin (N + 1)) : ℝ :=
  cheb_Dhat0 N i j - (if i = j then ∑ l, cheb_Dhat0 N i l else 0)

/-- chebyshev_lobatto_basis: physical nodes in [x1, x2] and the scaled,
reversed differentiation matrix (index 0 at x1, index N at x2). -/
def chebyshev_lobatto_basis (N : ℕ) (x1 x2 : ℝ) :
    (Fin (N + 1) → ℝ) × Matrix (Fin (N + 1)) (Fin (N + 1)) ℝ :=
  (fun i => 0.5 * (cheb_xhat N i.rev + 1) * (x2 - x1) + x1,
   fun i j => -(2 / (x2 - x1)) * cheb_Dhat N i.rev j.rev)

theorem cheb_Dhat_row_sum_zero (N : ℕ) (r : Fin (N + 1)) :
    ∑ j, cheb_Dhat N r j = 0 := by
  unfold cheb_Dhat
  rw [Finset.sum_sub_distrib, Finset.sum_ite_eq]
  simp

/-- Claim C7: for every order N at least 1 and domain with x2 distinct from
x1, each row of the differentiation matrix returned by
chebyshev_lobatto_basis sums to zero in exact arithmetic; equivalently the
matrix maps the constant nodal vector to zero. -/
theorem diff_matrix_row_sum_zero (N : ℕ) (x1 x2 : ℝ) (hN : 1 ≤ N)
    (hx : x2 ≠ x1) (i : Fin (N + 1)) :
    (∑ j, (chebyshev_lobatto_basis N x1 x2).2 i j = 0) ∧
      Matrix.mulVec (chebyshev_lobatto_basis N x1 x2).2 (fun _ => (1 : ℝ)) i = 0 := by
  have key : ∑ j, (chebyshev_lobatto_basis N x1 x2).2 i j = 0 := by
    unfold chebyshev_lobatto_basis
    dsimp only
    rw [← Finset.mul_sum]
    rw [Fin.rev_involutive.bijective.sum_comp (fun j => cheb_Dhat N i.rev j)]
    rw [cheb_Dhat_row_sum_zero N i.rev, mul_zero]
  refine ⟨key, ?_⟩
  have : Matrix.mulVec (chebyshev_lobatto_basis N x1 x2).2 (fun _ => (1 : ℝ)) i =
      ∑ j, (chebyshev_lobatto_basis N x1 x2).2 i j := by
    simp [Matrix.mulVec, Matrix.dotProduct]
  rw [this, key]

/-- The smooth soft-argmax initial guess of find_maximum_mach: softmax
weights with temperature alpha = 50 over the max-shifted nodal values,
averaged against the node coordinates. -/
def softmax_guess {n : ℕ} (x_nodes y_nodes : Fin (n + 1) → ℝ) : ℝ :=
  ∑ i, Real.exp (50 * (y_nodes i - Finset.univ.sup' Finset.univ_nonempty y_nodes)) /
      (∑ j, Real.exp (50 * (y_nodes j - Finset.univ.sup' Finset.univ_nonempty y_nodes))) *
    x_nodes i

/-- Termination test of the consumed Newton root finder with
cauchy_termination=False: the residual value is small against the
atol/rtol pair at the current iterate. -/
def newtonConverged (rtol atol : ℝ) (f : ℝ → ℝ) (x : ℝ) : Prop :=
  |f x| ≤ atol + rtol * |x|

/-- Modelled from the spec: the consumed nonlinear root-finding solver
contract (external interfaces, optimistix root_find with a Newton solver),
which is not part of this repository.  Given the residual function, the
internal Newton update map (abstracted as the argument upd), tolerances and
the remaining step budget, it iterates until the termination test holds or
the budget is exhausted, returning the final iterate and the number of
steps actually taken; with throw disabled a failure to converge is ignored
and the best-effort iterate is kept. -/
def rootFindAux (f upd : ℝ → ℝ) (rtol atol : ℝ) : ℕ → ℝ → ℝ × ℕ
  | 0, x => (x, 0)
  | fuel + 1, x =>
      haveI : Decidable (newtonConverged rtol atol f x) := Classical.dec _
      if newtonConverged rtol atol f x then (x, 0)
      else
        ((rootFindAux f upd rtol atol fuel (upd x)).1,
          (rootFindAux f upd rtol atol fuel (upd x)).2 + 1)

/-- Modelled from the spec: entry point of the consumed root finder, with
max_steps as the iteration cap. -/
def rootFindNewton (f upd : ℝ → ℝ) (rtol atol x0 : ℝ) (max_steps : ℕ) : ℝ × ℕ :=
  rootFindAux f upd rtol atol max_steps x0

theorem rootFindAux_steps_le (f upd : ℝ → ℝ) (rtol atol : ℝ) :
    ∀ (fuel : ℕ) (x : ℝ), (rootFindAux f upd rtol atol fuel x).2 ≤ fuel := by
  intro fuel
  induction fuel with
  | zero => intro x; simp [rootFindAux]
  | succ m ih =>
      intro x
      rw [rootFindAux]
      split
      · simp
      · simpa using Nat.succ_le_succ (ih (upd x))

theorem rootFindAux_of_converged (f upd : ℝ → ℝ) (rtol atol : ℝ) (x : ℝ)
    (h : newtonConverged rtol atol f x) :
    ∀ fuel : ℕ, rootFindAux f upd rtol atol fuel x = (x, 0) := by
  intro fuel
  cases fuel with
  | zero => rfl
  | succ m =>
      rw [rootFindAux]
      split
      · rfl
      · exact absurd h (by assumption)

/-- Float values as seen by the NaN guard of find_maximum_mach: NaN, the two
infinities, or a finite real. -/
inductive FVal where
  | nan : FVal
  | posinf : FVal
  | neginf : FVal
  | fin : ℝ → FVal

/-- Largest finite double, the value jnp.nan_to_num substitutes for a
positive infinity when only the nan substitute is specified. -/
def maxFloat : ℝ := 1.7976931348623157e308

/-- jnp.nan_to_num with nan=nanSub and default posinf/neginf handling:
NaN becomes the given substitute, infinities become the extreme finite
floats, finite values pass through. -/
def nan_to_num_model (r : FVal) (nanSub : ℝ) : ℝ :=
  match r with
  | FVal.nan => nanSub
  | FVal.posinf => maxFloat
  | FVal.neginf => -maxFloat
  | FVal.fin v => v

/-- The guard applied to the raw Newton result:
jnp.clip(jnp.nan_to_num(x_star, nan=x0), x1, x2). -/
def postGuard (r : FVal) (x0 x1 x2 : ℝ) : ℝ :=
  clip (nan_to_num_model r x0) x1 x2

/-- Residual used inside find_maximum_mach: the derivative of the
Chebyshev-Lobatto interpolant. -/
def fmm_resid {n : ℕ} (x_nodes y_nodes : Fin (n + 1) → ℝ) (t : ℝ) : ℝ :=
  (chebyshev_lobatto_interpolate_and_derivative x_nodes y_nodes t).2

/-- The guarded maximum location produced by find_maximum_mach: soft-argmax
guess, Newton root find on the interpolant derivative with the default
budget of 50 steps and tolerances 1e-10, then the NaN guard and clip into
[x_nodes 0, x_nodes last].  A real-valued Newton result is a finite float. -/
def fmm_xstar {n : ℕ} (upd : ℝ → ℝ) (x_nodes y_nodes : Fin (n + 1) → ℝ) : ℝ :=
  postGuard
    (FVal.fin
      (rootFindNewton (fmm_resid x_nodes y_nodes) upd (1e-10) (1e-10)
          (softmax_guess x_nodes y_nodes) 50).1)
    (softmax_guess x_nodes y_nodes) (x_nodes 0) (x_nodes (Fin.last n))

/-- find_maximum_mach: location of the interior maximum and the value of the
interpolant there. -/
def find_maximum_mach {n : ℕ} (upd : ℝ → ℝ) (x_nodes y_nodes : Fin (n + 1) → ℝ) :
    ℝ × ℝ :=
  (fmm_xstar upd x_nodes y_nodes,
   (chebyshev_lobatto_interpolate_and_derivative x_nodes y_nodes
       (fmm_xstar upd x_nodes y_nodes)).1)

theorem clip_mem (v lo hi : ℝ) (h : lo ≤ hi) : lo ≤ clip v lo hi ∧ clip v lo hi ≤ hi :=
  ⟨le_min (le_max_right v lo) h, min_le_right _ _⟩

/-- Claim C4 (amended): for every nodal input the location returned by
find_maximum_mach lies in the closed node domain because the guarded Newton
result is clipped into it; a NaN Newton result is replaced with the
soft-argmax initial guess before clipping, while an infinite result is
mapped by nan_to_num to the extreme finite float and is therefore clipped
to the corresponding domain endpoint. -/
theorem fmm_location_in_domain {n : ℕ} (upd : ℝ → ℝ)
    (x_nodes y_nodes : Fin (n + 1) → ℝ)
    (h : x_nodes 0 ≤ x_nodes (Fin.last n)) :
    (x_nodes 0 ≤ (find_maximum_mach upd x_nodes y_nodes).1 ∧
      (find_maximum_mach upd x_nodes y_nodes).1 ≤ x_nodes (Fin.last n)) ∧
    (∀ (r : FVal) (x0 a b : ℝ), a ≤ b →
      a ≤ postGuard r x0 a b ∧ postGuard r x0 a b ≤ b) ∧
    (∀ x0 a b : ℝ, postGuard FVal.nan x0 a b = clip x0 a b) := by
  refine ⟨?_, ?_, ?_⟩
  · exact clip_mem _ _ _ h
  · intro r x0 a b hab
    exact clip_mem _ _ _ hab
  · intro x0 a b
    rfl

/-- Claim C4, counterexample to the claim as stated: a positive-infinite
Newton result is not replaced with the soft-argmax initial guess (here 2):
nan_to_num maps it to the largest finite float, and the guarded location on
the domain [0, 5] is the endpoint 5, not the clipped guess 2. -/
theorem fmm_nonfinite_guard_counterexample :
    nan_to_num_model FVal.posinf 2 ≠ (2 : ℝ) ∧
      postGuard FVal.posinf 2 0 5 ≠ clip 2 0 5 := by
  constructor
  · unfold nan_to_num_model maxFloat
    norm_num
  · unfold postGuard nan_to_num_model clip maxFloat
    rw [max_eq_left (by norm_num : (0 : ℝ) ≤ 1.7976931348623157e308),
      min_eq_right (by norm_num : (5 : ℝ) ≤ 1.7976931348623157e308),
      max_eq_left (by norm_num : (0 : ℝ) ≤ 2),
      min_eq_left (by norm_num : (2 : ℝ) ≤ 5)]
    norm_num

/-- Closed witness for the amended claim C4 at a concrete one-node grid. -/
theorem fmm_location_in_domain_witness :
    ((fun _ : Fin 1 => (0 : ℝ)) 0 ≤
        (find_maximum_mach (fun t => t) (fun _ : Fin 1 => (0 : ℝ))
            (fun _ : Fin 1 => (0 : ℝ))).1 ∧
      (find_maximum_mach (fun t => t) (fun _ : Fin 1 => (0 : ℝ))
          (fun _ : Fin 1 => (0 : ℝ))).1 ≤ (fun _ : Fin 1 => (0 : ℝ)) (Fin.last 0)) ∧
    ((0 : ℝ) ≤ postGuard FVal.nan (1 / 2) 0 1 ∧ postGuard FVal.nan (1 / 2) 0 1 ≤ 1) ∧
    postGuard FVal.nan (1 / 2) 0 1 = clip (1 / 2) 0 1 := by
  have h := fmm_location_in_domain (n := 0) (fun t => t)
    (fun _ => (0 : ℝ)) (fun _ => (0 : ℝ)) le_rfl
  exact ⟨h.1, h.2.1 FVal.nan (1 / 2) 0 1 (by norm_num), h.2.2 (1 / 2) 0 1⟩

/-- Concrete node coordinates 0, 1, 2 for exercising the Newton search. -/
def c2x : Fin 3 → ℝ := fun i => (i.1 : ℝ)

/-- Concrete single-humped nodal profile 0, 1, 0. -/
def c2y : Fin 3 → ℝ := fun i => if i.1 = 1 then 1 else 0

theorem c2y_sup : Finset.univ.sup' Finset.univ_nonempty c2y = 1 := by
  apply le_antisymm
  · apply Finset.sup'_le
    intro i _
    fin_cases i <;> norm_num [c2y]
  · simpa [c2y] using Finset.le_sup' c2y (Finset.mem_univ (1 : Fin 3))

theorem c2_guess : softmax_guess c2x c2y = 1 := by
  unfold softmax_guess
  show (∑ i : Fin 3,
      Real.exp (50 * (c2y i - Finset.univ.sup' Finset.univ_nonempty c2y)) /
        (∑ j : Fin 3,
          Real.exp (50 * (c2y j - Finset.univ.sup' Finset.univ_nonempty c2y))) *
      c2x i) = 1
  rw [c2y_sup]
  simp only [Fin.sum_univ_three]
  have h0 : c2y 0 = 0 := rfl
  have h1 : c2y 1 = 1 := rfl
  have h2 : c2y 2 = 0 := rfl
  have g0 : c2x 0 = 0 := by norm_num [c2x]
  have g1 : c2x 1 = 1 := by norm_num [c2x]
  have g2 : c2x 2 = 2 := by norm_num [c2x]
  rw [h0, h1, h2, g0, g1, g2]
  have e1 : (50 : ℝ) * (1 - 1) = 0 := by ring
  have e0 : (50 : ℝ) * (0 - 1) = -50 := by ring
  rw [e0, e1, Real.exp_zero]
  have hE : 0 < Real.exp (-50) := Real.exp_pos _
  have hZ : Real.exp (-50) + 1 + Real.exp (-50) ≠ 0 := by positivity
  field_simp
  ring

theorem c2x_distinct : ∀ a b : Fin 3, a ≠ b → c2x a ≠ c2x b := by
  intro a b hab
  fin_cases a <;> fin_cases b <;> simp_all [c2x]

theorem c2_deriv_zero : fmm_resid c2x c2y 1 = 0 := by
  unfold fmm_resid
  have hx : (1 : ℝ) = c2x 1 := by norm_num [c2x]
  rw [interp_at_node_aux c2x c2y 1 1 c2x_distinct hx]
  show (∑ j ∈ Finset.univ.erase (1 : Fin 3),
      wBary 2 j / wBary 2 1 * (c2y 1 - c2y j) / (c2x 1 - c2x j)) = 0
  have herase :
      (∑ j ∈ Finset.univ.erase (1 : Fin 3),
          wBary 2 j / wBary 2 1 * (c2y 1 - c2y j) / (c2x 1 - c2x j)) =
        (∑ j : Fin 3, wBary 2 j / wBary 2 1 * (c2y 1 - c2y j) / (c2x 1 - c2x j)) -
          wBary 2 1 / wBary 2 1 * (c2y 1 - c2y 1) / (c2x 1 - c2x 1) := by
    rw [← Finset.sum_erase_add Finset.univ _ (Finset.mem_univ (1 : Fin 3))]
    ring
  rw [herase, Fin.sum_univ_three]
  norm_num [wBary, c2x, c2y]

theorem c2_converged :
    newtonConverged (1e-10) (1e-10) (fmm_resid c2x c2y) (softmax_guess c2x c2y) := by
  unfold newtonConverged
  rw [c2_guess, c2_deriv_zero]
  norm_num

/-- Claim C2, counterexample to the claim as stated: on the concrete
single-humped profile the soft-argmax guess already satisfies the Newton
termination test, so the search exits after 0 iterations instead of
spending the full default budget of 50 iterations, whatever the internal
update map does. -/
theorem newton_full_budget_counterexample :
    (rootFindNewton (fmm_resid c2x c2y) (fun t => t) (1e-10) (1e-10)
        (softmax_guess c2x c2y) 50).2 = 0 ∧
      (rootFindNewton (fmm_resid c2x c2y) (fun t => t) (1e-10) (1e-10)
          (softmax_guess c2x c2y) 50).2 ≠ 50 := by
  unfold rootFindNewton
  rw [rootFindAux_of_converged _ _ _ _ _ c2_converged 50]
  norm_num

/-- Claim C2 (amended): the Newton search inside find_maximum_mach runs at
most newton_steps iterations (default 50); it exits early as soon as the
residual meets the rtol/atol termination test, and non-convergence at the
cap is ignored rather than raised. -/
theorem newton_capped_early_exit (f upd : ℝ → ℝ) (rtol atol x0 : ℝ) (cap : ℕ) :
    (rootFindNewton f upd rtol atol x0 cap).2 ≤ cap ∧
      (newtonConverged rtol atol f x0 →
        rootFindNewton f upd rtol atol x0 cap = (x0, 0)) :=
  ⟨rootFindAux_steps_le f upd rtol atol cap x0,
   fun h => rootFindAux_of_converged f upd rtol atol x0 h cap⟩

/-- Closed witness for the amended claim C2 at the concrete profile. -/
theorem newton_capped_early_exit_witness :
    (rootFindNewton (fmm_resid c2x c2y) (fun t => t) (1e-10) (1e-10)
        (softmax_guess c2x c2y) 50).2 ≤ 50 ∧
      rootFindNewton (fmm_resid c2x c2y) (fun t => t) (1e-10) (1e-10)
          (softmax_guess c2x c2y) 50 = (softmax_guess c2x c2y, 0) :=
  ⟨(newton_capped_early_exit (fmm_resid c2x c2y) (fun t => t) (1e-10) (1e-10)
      (softmax_guess c2x c2y) 50).1,
   (newton_capped_early_exit (fmm_resid c2x c2y) (fun t => t) (1e-10) (1e-10)
      (softmax_guess c2x c2y) 50).2 c2_converged⟩

/-- ResidualParams: collocation nodes, differentiation operator and model
parameters grouped for the residual functions. -/
structure ResidualParamsL (n : ℕ) where
  x : Fin (n + 1) → ℝ
  Dx : Matrix (Fin (n + 1)) (Fin (n + 1)) ℝ
  model : NozzleParamsL

/-- Interior velocity residual R_u = Dx @ u - N[:,0] / D. -/
def interior_residual_u {n : ℕ} (core : NozzleCore) (z : Fin (3 * (n + 1)) → ℝ)
    (params : ResidualParamsL n) : Fin (n + 1) → ℝ :=
  fun i =>
    Matrix.mulVec params.Dx (split_z z).1 i -
      (evaluate_ode_rhs params.x z params.model core i).N0 /
        (evaluate_ode_rhs params.x z params.model core i).Dtau

/-- Interior log-density residual R_d = Dx @ ln_d - N[:,1] / D / d. -/
def interior_residual_d {n : ℕ} (core : NozzleCore) (z : Fin (3 * (n + 1)) → ℝ)
    (params : ResidualParamsL n) : Fin (n + 1) → ℝ :=
  fun i =>
    Matrix.mulVec params.Dx (split_z z).2.1 i -
      (evaluate_ode_rhs params.x z params.model core i).N1 /
        (evaluate_ode_rhs params.x z params.model core i).Dtau /
        Real.exp ((split_z z).2.1 i)

/-- Interior log-pressure residual R_p = Dx @ ln_p - N[:,2] / D / p. -/
def interior_residual_p {n : ℕ} (core : NozzleCore) (z : Fin (3 * (n + 1)) → ℝ)
    (params : ResidualParamsL n) : Fin (n + 1) → ℝ :=
  fun i =>
    Matrix.mulVec params.Dx (split_z z).2.2 i -
      (evaluate_ode_rhs params.x z params.model core i).N2 /
        (evaluate_ode_rhs params.x z params.model core i).Dtau /
        Real.exp ((split_z z).2.2 i)

/-- get_residual_mach_inlet: interior residuals with the first node of each
block overridden by the three boundary conditions of the mach_in mode. -/
def get_residual_mach_inlet {n : ℕ} (core : NozzleCore) (z : Fin (3 * (n + 1)) → ℝ)
    (params : ResidualParamsL n) : Fin (3 * (n + 1)) → ℝ :=
  concat3
    (Function.update (interior_residual_u core z params) 0
      (params.model.Ma_in - (evaluate_ode_rhs params.x z params.model core 0).Ma))
    (Function.update (interior_residual_d core z params) 0
      (Real.log (params.model.d0_in /
        (evaluate_ode_rhs params.x z params.model core 0).d0)))
    (Function.update (interior_residual_p core z params) 0
      (Real.log (params.model.p0_in /
        (evaluate_ode_rhs params.x z params.model core 0).p0)))

/-- get_residual_mach_critical: identical interior residuals and stagnation
boundary conditions; the first velocity entry instead enforces the target
critical Mach against the located interior maximum Mach. -/
def get_residual_mach_critical {n : ℕ} (core : NozzleCore) (upd : ℝ → ℝ)
    (z : Fin (3 * (n + 1)) → ℝ) (params : ResidualParamsL n) :
    Fin (3 * (n + 1)) → ℝ :=
  concat3
    (Function.update (interior_residual_u core z params) 0
      (params.model.Ma_target -
        (find_maximum_mach upd params.x
            (fun i => (evaluate_ode_rhs params.x z params.model core i).Ma)).2))
    (Function.update (interior_residual_d core z params) 0
      (Real.log (params.model.d0_in /
        (evaluate_ode_rhs params.x z params.model core 0).d0)))
    (Function.update (interior_residual_p core z params) 0
      (Real.log (params.model.p0_in /
        (evaluate_ode_rhs params.x z params.model core 0).p0)))

/-- Flat index of the velocity entry of node j. -/
def embU {n : ℕ} (j : Fin (n + 1)) : Fin (3 * (n + 1)) :=
  ⟨j.1, by have := j.2; omega⟩

/-- Flat index of the log-density entry of node j. -/
def embD {n : ℕ} (j : Fin (n + 1)) : Fin (3 * (n + 1)) :=
  ⟨(n + 1) + j.1, by have := j.2; omega⟩

/-- Flat index of the log-pressure entry of node j. -/
def embP {n : ℕ} (j : Fin (n + 1)) : Fin (3 * (n + 1)) :=
  ⟨2 * (n + 1) + j.1, by have := j.2; omega⟩

theorem concat3_embU {n : ℕ} (a b c : Fin (n + 1) → ℝ) (j : Fin (n + 1)) :
    concat3 a b c (embU j) = a j := by
  simp only [concat3, embU]
  rw [dif_pos (show j.1 < n + 1 from j.2)]

theorem concat3_embD {n : ℕ} (a b c : Fin (n + 1) → ℝ) (j : Fin (n + 1)) :
    concat3 a b c (embD j) = b j := by
  simp only [concat3, embD]
  have h1 : ¬ ((n + 1) + j.1 < n + 1) := by omega
  have h2 : (n + 1) + j.1 < 2 * (n + 1) := by have := j.2; omega
  have h3 : (⟨(n + 1) + j.1 - (n + 1), by omega⟩ : Fin (n + 1)) = j := by
    apply Fin.ext
    show (n + 1) + j.1 - (n + 1) = j.1
    omega
  rw [dif_neg h1, dif_pos h2, h3]

theorem concat3_embP {n : ℕ} (a b c : Fin (n + 1) → ℝ) (j : Fin (n + 1)) :
    concat3 a b c (embP j) = c j := by
  simp only [concat3, embP]
  have h1 : ¬ (2 * (n + 1) + j.1 < n + 1) := by omega
  have h2 : ¬ (2 * (n + 1) + j.1 < 2 * (n + 1)) := by omega
  have h3 : (⟨2 * (n + 1) + j.1 - 2 * (n + 1), by have := j.2; omega⟩ : Fin (n + 1)) = j := by
    apply Fin.ext
    show 2 * (n + 1) + j.1 - 2 * (n + 1) = j.1
    omega
  rw [dif_neg h1, dif_neg h2, h3]

/-- Claim C3 (amended): in mach_in mode the residual equals the interior PDE
residual, divided by the relevant state variable for the log-transformed
unknowns, at every node except the first, where the three first-node
entries are overridden by (target inlet Mach minus inlet Mach), the log of
the inlet stagnation density ratio and the log of the inlet stagnation
pressure ratio. -/
theorem residual_mach_inlet_structure {n : ℕ} (core : NozzleCore)
    (z : Fin (3 * (n + 1)) → ℝ) (params : ResidualParamsL n)
    (j : Fin (n + 1)) (hj : j ≠ 0) :
    (get_residual_mach_inlet core z params (embU j) =
        Matrix.mulVec params.Dx (split_z z).1 j -
          (evaluate_ode_rhs params.x z params.model core j).N0 /
            (evaluate_ode_rhs params.x z params.model core j).Dtau ∧
      get_residual_mach_inlet core z params (embD j) =
        Matrix.mulVec params.Dx (split_z z).2.1 j -
          (evaluate_ode_rhs params.x z params.model core j).N1 /
            (evaluate_ode_rhs params.x z params.model core j).Dtau /
            Real.exp ((split_z z).2.1 j) ∧
      get_residual_mach_inlet core z params (embP j) =
        Matrix.mulVec params.Dx (split_z z).2.2 j -
          (evaluate_ode_rhs params.x z params.model core j).N2 /
            (evaluate_ode_rhs params.x z params.model core j).Dtau /
            Real.exp ((split_z z).2.2 j)) ∧
    get_residual_mach_inlet core z params (embU 0) =
      params.model.Ma_in - (evaluate_ode_rhs params.x z params.model core 0).Ma ∧
    get_residual_mach_inlet core z params (embD 0) =
      Real.log (params.model.d0_in /
        (evaluate_ode_rhs params.x z params.model core 0).d0) ∧
    get_residual_mach_inlet core z params (embP 0) =
      Real.log (params.model.p0_in /
        (evaluate_ode_rhs params.x z params.model core 0).p0) := by
  unfold get_residual_mach_inlet
  refine ⟨⟨?_, ?_, ?_⟩, ?_, ?_, ?_⟩
  · rw [concat3_embU, Function.update_noteq hj]
    rfl
  · rw [concat3_embD, Function.update_noteq hj]
    rfl
  · rw [concat3_embP, Function.update_noteq hj]
    rfl
  · rw [concat3_embU, Function.update_same]
  · rw [concat3_embD, Function.update_same]
  · rw [concat3_embP, Function.update_same]

/-- Constant physics-core output used for concrete instantiations: Mach 0.3
and unit denominators and stagnation quantities everywhere. -/
def c3core : NozzleCore := fun _ _ _ =>
  ⟨0, 0, 0, 1, 0.3, 1, 1, fun _ => 0⟩

/-- Concrete model parameters with target inlet Mach 0.1. -/
def c3model : NozzleParamsL :=
  ⟨1, 1, 1, 1, 0, 1, 0.1, 1, 1, 1, 0, 0⟩

/-- Concrete residual parameters on the single-node grid. -/
def c3params : ResidualParamsL 0 :=
  ⟨fun _ => 0, fun _ _ => 0, c3model⟩

/-- Claim C3, counterexample to the claim as stated: the first velocity
residual entry is the target inlet Mach minus the computed inlet Mach
(here 0.1 - 0.3 = -0.2), not the computed inlet Mach minus the target
(which would be 0.2). -/
theorem residual_mach_inlet_sign_counterexample :
    get_residual_mach_inlet c3core (fun _ => 0) c3params (embU 0) = -(0.2 : ℝ) ∧
      get_residual_mach_inlet c3core (fun _ => 0) c3params (embU 0) ≠
        (evaluate_ode_rhs c3params.x (fun _ => 0) c3params.model c3core 0).Ma -
          c3params.model.Ma_in := by
  have he : get_residual_mach_inlet c3core (fun _ => 0) c3params (embU 0) =
      c3params.model.Ma_in -
        (evaluate_ode_rhs c3params.x (fun _ => 0) c3params.model c3core 0).Ma := by
    unfold get_residual_mach_inlet
    rw [concat3_embU, Function.update_same]
  have hMa : (evaluate_ode_rhs c3params.x (fun _ => 0) c3params.model c3core 0).Ma =
      (0.3 : ℝ) := rfl
  have hin : c3params.model.Ma_in = (0.1 : ℝ) := rfl
  rw [he, hMa, hin]
  norm_num

/-- Concrete flat state on the two-node grid. -/
def c3z6 : Fin (3 * (1 + 1)) → ℝ := fun _ => 0

/-- Concrete residual parameters on the two-node grid. -/
def c3paramsB : ResidualParamsL 1 :=
  ⟨fun _ => 0, fun _ _ => 0, c3model⟩

/-- Closed witness for the amended claim C3 at the two-node grid, node 1. -/
theorem residual_mach_inlet_structure_witness :
    get_residual_mach_inlet c3core c3z6 c3paramsB (embU 1) =
        Matrix.mulVec c3paramsB.Dx (split_z c3z6).1 1 -
          (evaluate_ode_rhs c3paramsB.x c3z6 c3paramsB.model c3core 1).N0 /
            (evaluate_ode_rhs c3paramsB.x c3z6 c3paramsB.model c3core 1).Dtau ∧
      get_residual_mach_inlet c3core c3z6 c3paramsB (embU 0) =
        c3paramsB.model.Ma_in -
          (evaluate_ode_rhs c3paramsB.x c3z6 c3paramsB.model c3core 0).Ma :=
  ⟨(residual_mach_inlet_structure c3core c3z6 c3paramsB 1 (by decide)).1.1,
   (residual_mach_inlet_structure c3core c3z6 c3paramsB 1 (by decide)).2.1⟩

/-- Claim C5: the residual vectors of the mach_in and mach_crit modes agree
at every flat index other than index 0: the interior residuals and the two
stagnation log-ratio boundary conditions are identical, and only the first
velocity entry differs between the two modes. -/
theorem residual_modes_agree_off_index_zero {n : ℕ} (core : NozzleCore)
    (upd : ℝ → ℝ) (z : Fin (3 * (n + 1)) → ℝ) (params : ResidualParamsL n)
    (i : Fin (3 * (n + 1))) (hi : i.1 ≠ 0) :
    get_residual_mach_inlet core z params i =
      get_residual_mach_critical core upd z params i := by
  unfold get_residual_mach_inlet get_residual_mach_critical concat3
  by_cases h : i.1 < n + 1
  · rw [dif_pos h, dif_pos h]
    have hne : (⟨i.1, h⟩ : Fin (n + 1)) ≠ 0 := by
      intro he
      exact hi (congrArg Fin.val he)
    rw [Function.update_noteq hne, Function.update_noteq hne]
  · rw [dif_neg h, dif_neg h]

/-- Closed witness for claim C5 at a concrete single-node instantiation. -/
theorem residual_modes_agree_witness :
    get_residual_mach_inlet c3core (fun _ => 0) c3params ⟨1, by norm_num⟩ =
      get_residual_mach_critical c3core (fun t => t) (fun _ => 0) c3params
        ⟨1, by norm_num⟩ :=
  residual_modes_agree_off_index_zero c3core (fun t => t) (fun _ => 0) c3params
    ⟨1, by norm_num⟩ (by norm_num)

/-- The cubic smoothstep weighting, clipping its argument into [0, 1]. -/
def smoothstep (x : ℝ) : ℝ :=
  clip x 0 1 * clip x 0 1 * (3 - 2 * clip x 0 1)

/-- ode_full_transonic of the marching phase: the true right-hand side
together with the blended right-hand side.  Inside the Mach window
[Ma_low, Ma_high] the blend is the smoothstep-weighted combination of the
linear Taylor expansion at the sonic state (coefficients fstar, Jy, Jt
computed externally by automatic differentiation) and the true right-hand
side, with the ramp running from Ma_start = 1.001 to Ma_high; outside the
window the true right-hand side is used unmodified. -/
def ode_full_transonic (core : NozzleCore) (fstar : Fin 3 → ℝ)
    (Jy : Matrix (Fin 3) (Fin 3) ℝ) (Jt : Fin 3 → ℝ) (ycrit : Fin 3 → ℝ)
    (xcrit : ℝ) (t : ℝ) (y : Fin 3 → ℝ) (args : NozzleParamsL) :
    (Fin 3 → ℝ) × (Fin 3 → ℝ) :=
  haveI : Decidable (args.Ma_low ≤ (core t y args).Ma ∧
      (core t y args).Ma ≤ args.Ma_high) := Classical.dec _
  ((core t y args).rhs,
   if args.Ma_low ≤ (core t y args).Ma ∧ (core t y args).Ma ≤ args.Ma_high then
     fun i =>
       (1 - smoothstep (clip (((core t y args).Ma - 1.001) /
           (args.Ma_high - 1.001)) 0 1)) *
         (fstar i + Matrix.mulVec Jy (fun j => y j - ycrit j) i +
           Jt i * (t - xcrit)) +
       smoothstep (clip (((core t y args).Ma - 1.001) /
           (args.Ma_high - 1.001)) 0 1) *
         (core t y args).rhs i
   else (core t y args).rhs)

/-- Claim C8: whenever the local Mach number lies outside the window
[Ma_low, Ma_high] the blended right-hand side equals the true nonlinear
right-hand side unmodified; inside the window it is the cubic-smoothstep
weighted combination of the linear Taylor expansion at the sonic state and
the true right-hand side. -/
theorem ode_transonic_blend (core : NozzleCore) (fstar : Fin 3 → ℝ)
    (Jy : Matrix (Fin 3) (Fin 3) ℝ) (Jt : Fin 3 → ℝ) (ycrit : Fin 3 → ℝ)
    (xcrit : ℝ) (t : ℝ) (y : Fin 3 → ℝ) (args : NozzleParamsL) :
    ((core t y args).Ma < args.Ma_low ∨ args.Ma_high < (core t y args).Ma →
      (ode_full_transonic core fstar Jy Jt ycrit xcrit t y args).2 =
        (core t y args).rhs) ∧
    (args.Ma_low ≤ (core t y args).Ma → (core t y args).Ma ≤ args.Ma_high →
      (ode_full_transonic core fstar Jy Jt ycrit xcrit t y args).2 = fun i =>
        (1 - smoothstep (clip (((core t y args).Ma - 1.001) /
            (args.Ma_high - 1.001)) 0 1)) *
          (fstar i + Matrix.mulVec Jy (fun j => y j - ycrit j) i +
            Jt i * (t - xcrit)) +
        smoothstep (clip (((core t y args).Ma - 1.001) /
            (args.Ma_high - 1.001)) 0 1) *
          (core t y args).rhs i) := by
  unfold ode_full_transonic
  constructor
  · intro h
    dsimp only
    rw [if_neg]
    rcases h with h | h
    · exact fun hab => absurd hab.1 (not_le.mpr h)
    · exact fun hab => absurd hab.2 (not_le.mpr h)
  · intro h1 h2
    dsimp only
    rw [if_pos ⟨h1, h2⟩]

/-- Constant core with Mach 2 (outside the window of c3model). -/
def c8coreA : NozzleCore := fun _ _ _ => ⟨0, 0, 0, 1, 2, 1, 1, fun _ => 7⟩

/-- Constant core with Mach 1 (inside the window of c3model). -/
def c8coreB : NozzleCore := fun _ _ _ => ⟨0, 0, 0, 1, 1, 1, 1, fun _ => 7⟩

/-- Closed witness for claim C8, covering both the outside-window and the
inside-window branches at concrete inputs. -/
theorem ode_transonic_blend_witness :
    (ode_full_transonic c8coreA (fun _ => 0) 0 (fun _ => 0) (fun _ => 0) 0 0
        (fun _ => 0) c3model).2 = (c8coreA 0 (fun _ => 0) c3model).rhs ∧
    (ode_full_transonic c8coreB (fun _ => 0) 0 (fun _ => 0) (fun _ => 0) 0 0
        (fun _ => 0) c3model).2 = fun i =>
      (1 - smoothstep (clip (((c8coreB 0 (fun _ => 0) c3model).Ma - 1.001) /
          (c3model.Ma_high - 1.001)) 0 1)) *
        ((fun _ : Fin 3 => (0 : ℝ)) i +
          Matrix.mulVec 0 (fun j => (fun _ : Fin 3 => (0 : ℝ)) j -
            (fun _ : Fin 3 => (0 : ℝ)) j) i +
          (fun _ : Fin 3 => (0 : ℝ)) i * ((0 : ℝ) - 0)) +
      smoothstep (clip (((c8coreB 0 (fun _ => 0) c3model).Ma - 1.001) /
          (c3model.Ma_high - 1.001)) 0 1) *
        (c8coreB 0 (fun _ => 0) c3model).rhs i := by
  constructor
  · exact (ode_transonic_blend c8coreA (fun _ => 0) 0 (fun _ => 0) (fun _ => 0)
      0 0 (fun _ => 0) c3model).1
      (Or.inr (by norm_num [c8coreA, c3model]))
  · exact (ode_transonic_blend c8coreB (fun _ => 0) 0 (fun _ => 0) (fun _ => 0)
      0 0 (fun _ => 0) c3model).2
      (by norm_num [c8coreB, c3model]) (by norm_num [c8coreB, c3model])

/-- The value/status record returned by one least-squares solver run. -/
structure LSResultL (n : ℕ) where
  value : Fin (3 * (n + 1)) → ℝ
  success : Bool

/-- Failure modes of the solver driver: the fail-fast configuration error on
an unknown solve_mode selector, and the raised non-convergence error of a
throwing least-squares call. -/
inductive SolveError where
  | unknownMode : SolveError
  | nonConvergence : SolveError

/-- A residual function as passed to the least-squares solver: flat state
and residual arguments to flat residual. -/
def ResidualFn (n : ℕ) : Type :=
  (Fin (3 * (n + 1)) → ℝ) → ResidualParamsL n → (Fin (3 * (n + 1)) → ℝ)

/-- The iteration of one configured least-squares solver instance,
abstracted as a function from the residual function, its arguments and the
initial guess to a final iterate and a convergence flag (the algorithm
choice, tolerances and step caps of the settings record are absorbed into
this abstraction). -/
def SolverRun (n : ℕ) : Type :=
  ResidualFn n → ResidualParamsL n → (Fin (3 * (n + 1)) → ℝ) →
    (Fin (3 * (n + 1)) → ℝ) × Bool

/-- Modelled from the spec: the consumed nonlinear least-squares solver
contract (external interfaces, optimistix least_squares), which is not part
of this repository.  It supports a non-throwing mode in which
non-convergence is reported through the returned status rather than raised;
when the throwing flag thr is set (the default of the consumed library,
used when the call site passes no throw argument), non-convergence raises
an error instead of returning the record. -/
def least_squares_model {n : ℕ} (fn : ResidualFn n) (args : ResidualParamsL n)
    (y0 : Fin (3 * (n + 1)) → ℝ) (runSolver : SolverRun n) (thr : Bool) :
    Except SolveError (LSResultL n) :=
  if thr = true ∧ (runSolver fn args y0).2 = false then
    Except.error SolveError.nonConvergence
  else Except.ok ⟨(runSolver fn args y0).1, (runSolver fn args y0).2⟩

/-- solve_nozzle_model_collocation: build the collocation basis once, select
the residual function from solve_mode (failing fast on an unknown
selector), run the warmup solver with throw disabled (non-convergence
swallowed, best-effort iterate kept), run the main solver from the warmup
value without a throw argument (the throwing library default), and
evaluate the flowfield at the converged state. -/
def solve_nozzle_model_collocation {n : ℕ} (core : NozzleCore) (upd : ℝ → ℝ)
    (initial_guess : Fin (3 * (n + 1)) → ℝ) (params_model : NozzleParamsL)
    (mode : String) (runWarmup runMain : SolverRun n) :
    Except SolveError ((Fin (n + 1) → PhysOut) × LSResultL n) := do
  let residual_args : ResidualParamsL n :=
    ⟨(chebyshev_lobatto_basis n 0 params_model.length).1,
     (chebyshev_lobatto_basis n 0 params_model.length).2, params_model⟩
  let residual_fn : ResidualFn n ←
    if mode = "mach_in" then
      Except.ok fun z p => get_residual_mach_inlet core z p
    else if mode = "mach_crit" then
      Except.ok fun z p => get_residual_mach_critical core upd z p
    else Except.error SolveError.unknownMode
  let solution_warmup ←
    least_squares_model residual_fn residual_args initial_guess runWarmup false
  let solution ←
    least_squares_model residual_fn residual_args solution_warmup.value runMain true
  Except.ok (evaluate_ode_rhs residual_args.x solution.value params_model core,
    solution)

/-- The residual function selected for a valid solve_mode. -/
def selected_residual_fn {n : ℕ} (core : NozzleCore) (upd : ℝ → ℝ)
    (mode : String) : ResidualFn n :=
  if mode = "mach_in" then fun z p => get_residual_mach_inlet core z p
  else fun z p => get_residual_mach_critical core upd z p

/-- A solver run that never converges and returns its guess unchanged. -/
def c1fail : SolverRun 0 := fun _ _ y => (y, false)

/-- A solver run that reports convergence at its guess. -/
def c1ok : SolverRun 0 := fun _ _ y => (y, true)

/-- Claim C1, counterexample to the claim as stated: with a valid solve_mode
and a main solver run that does not converge, solve_nozzle_model_collocation
raises the non-convergence error instead of returning a solution object
carrying the failure status. -/
theorem solve_raises_on_main_nonconvergence :
    solve_nozzle_model_collocation c3core (fun t => t) (fun _ => 0) c3model
      "mach_in" c1fail c1fail = Except.error SolveError.nonConvergence := rfl

/-- Claim C1 (amended): for every initial guess, model parameters and valid
solve_mode, the warmup stage never raises and its best-effort iterate is
passed to the main solver whatever the warmup convergence flag; the main
least_squares call is made with the throwing library default, so main-solver
non-convergence raises the non-convergence error, while on success the
evaluated flowfield and the solution record are returned. -/
theorem solve_two_stage_flow {n : ℕ} (core : NozzleCore) (upd : ℝ → ℝ)
    (initial_guess : Fin (3 * (n + 1)) → ℝ) (params_model : NozzleParamsL)
    (mode : String) (runWarmup runMain : SolverRun n)
    (hmode : mode = "mach_in" ∨ mode = "mach_crit") :
    least_squares_model (selected_residual_fn core upd mode)
        ⟨(chebyshev_lobatto_basis n 0 params_model.length).1,
         (chebyshev_lobatto_basis n 0 params_model.length).2, params_model⟩
        initial_guess runWarmup false =
      Except.ok
        ⟨(runWarmup (selected_residual_fn core upd mode)
            ⟨(chebyshev_lobatto_basis n 0 params_model.length).1,
             (chebyshev_lobatto_basis n 0 params_model.length).2, params_model⟩
            initial_guess).1,
         (runWarmup (selected_residual_fn core upd mode)
            ⟨(chebyshev_lobatto_basis n 0 params_model.length).1,
             (chebyshev_lobatto_basis n 0 params_model.length).2, params_model⟩
            initial_guess).2⟩ ∧
    ((runMain (selected_residual_fn core upd mode)
        ⟨(chebyshev_lobatto_basis n 0 params_model.length).1,
         (chebyshev_lobatto_basis n 0 params_model.length).2, params_model⟩
        (runWarmup (selected_residual_fn core upd mode)
          ⟨(chebyshev_lobatto_basis n 0 params_model.length).1,
           (chebyshev_lobatto_basis n 0 params_model.length).2, params_model⟩
          initial_guess).1).2 = false →
      solve_nozzle_model_collocation core upd initial_guess params_model mode
          runWarmup runMain = Except.error SolveError.nonConvergence) ∧
    ((runMain (selected_residual_fn core upd mode)
        ⟨(chebyshev_lobatto_basis n 0 params_model.length).1,
         (chebyshev_lobatto_basis n 0 params_model.length).2, params_model⟩
        (runWarmup (selected_residual_fn core upd mode)
          ⟨(chebyshev_lobatto_basis n 0 params_model.length).1,
           (chebyshev_lobatto_basis n 0 params_model.length).2, params_model⟩
          initial_guess).1).2 = true →
      solve_nozzle_model_collocation core upd initial_guess params_model mode
          runWarmup runMain =
        Except.ok
          (evaluate_ode_rhs (chebyshev_lobatto_basis n 0 params_model.length).1
            (runMain (selected_residual_fn core upd mode)
              ⟨(chebyshev_lobatto_basis n 0 params_model.length).1,
               (chebyshev_lobatto_basis n 0 params_model.length).2, params_model⟩
              (runWarmup (selected_residual_fn core upd mode)
                ⟨(chebyshev_lobatto_basis n 0 params_model.length).1,
                 (chebyshev_lobatto_basis n 0 params_model.length).2, params_model⟩
                initial_guess).1).1 params_model core,
           ⟨(runMain (selected_residual_fn core upd mode)
              ⟨(chebyshev_lobatto_basis n 0 params_model.length).1,
               (chebyshev_lobatto_basis n 0 params_model.length).2, params_model⟩
              (runWarmup (selected_residual_fn core upd mode)
                ⟨(chebyshev_lobatto_basis n 0 params_model.length).1,
                 (chebyshev_lobatto_basis n 0 params_model.length).2, params_model⟩
                initial_guess).1).1, true⟩)) := by
  rcases hmode with h | h <;> subst h <;>
    unfold solve_nozzle_model_collocation selected_residual_fn
      least_squares_model <;>
    simp only [reduceIte, String.reduceEq] <;>
    refine ⟨by simp, ?_, ?_⟩ <;> intro hm <;>
    simp [Bind.bind, Except.bind, hm]

/-- Closed witness for the amended claim C1: with the valid mach_in mode,
a non-convergent main run raises the error and a convergent main run
returns the evaluated flowfield with the success record. -/
theorem solve_two_stage_flow_witness :
    solve_nozzle_model_collocation c3core (fun t => t) (fun _ => 0) c3model
        "mach_in" c1fail c1fail = Except.error SolveError.nonConvergence ∧
      solve_nozzle_model_collocation c3core (fun t => t) (fun _ => 0) c3model
          "mach_in" c1fail c1ok =
        Except.ok
          (evaluate_ode_rhs (chebyshev_lobatto_basis 0 0 c3model.length).1
            (fun _ => 0) c3model c3core,
           ⟨fun _ => 0, true⟩) :=
  ⟨(solve_two_stage_flow c3core (fun t => t) (fun _ => 0) c3model "mach_in"
      c1fail c1fail (Or.inl rfl)).2.1 rfl,
   (solve_two_stage_flow c3core (fun t => t) (fun _ => 0) c3model "mach_in"
      c1fail c1ok (Or.inl rfl)).2.2 rfl⟩

/-- Concrete two-point node set 0, 1. -/
def c6x : Fin (1 + 1) → ℝ := fun j => (j.1 : ℝ)

/-- Concrete nodal values 3, 4. -/
def c6y : Fin (1 + 1) → ℝ := fun j => (j.1 : ℝ) + 3

/-- Closed witness for claim C6 at the node set 0, 1 evaluated exactly at
node 0. -/
theorem interpolate_at_node_exact_witness :
    chebyshev_lobatto_interpolate_and_derivative c6x c6y 0 =
      (c6y 0,
        ∑ j ∈ Finset.univ.erase (0 : Fin (1 + 1)),
          wBary 1 j / wBary 1 0 * (c6y 0 - c6y j) / (c6x 0 - c6x j)) :=
  interpolate_at_node_exact c6x c6y 0 0
    (by
      intro a b hab
      fin_cases a <;> fin_cases b <;> simp_all [c6x])
    (by norm_num [c6x])

/-- Closed witness for claim C7 at order 1 on the domain [0, 1], row 0. -/
theorem diff_matrix_row_sum_zero_witness :
    (∑ j, (chebyshev_lobatto_basis 1 0 1).2 0 j = 0) ∧
      Matrix.mulVec (chebyshev_lobatto_basis 1 0 1).2 (fun _ => (1 : ℝ)) 0 = 0 :=
  diff_matrix_row_sum_zero 1 0 1 (le_refl 1) (by norm_num) 0

end NozzleModel
